import Mathlib

/-!
# ani: rotating a still image into a looping GIF

A shallow embedding of `main.go` (package `main` of `campbel/ani`) and of the
pieces of the Go standard library it calls, followed by the properties of the
frame pipeline.

* `float64` values are carried as the rational number they denote; every
  arithmetic operation computes the exact result and rounds it to the nearest
  binary64 value, ties to even (`Float64.round`).
* `int` values are integers; the places where the 64-bit range matters
  (`Float64.toInt`) check it explicitly.
* A run-time panic is an `Except.error`.
* `transform.Rotate` (library `bild`) and the file and encoder calls of `main`
  are parameters.
* The goroutines of `getFrames` and `makeGif` write disjoint, pre-determined
  slots and are joined by a `sync.WaitGroup` before the function returns, so
  they are embedded as the sequential loop that fills the slots in index order.
-/

namespace Ani

/-! ## float64 -/

/-- A value of Go's `float64`. A finite value is the rational it denotes (the sign
of a zero is not tracked). -/
inductive Float64 where
  | finite (q : ℚ)
  | inf (negative : Bool)
  | nan
deriving DecidableEq

/-- The quotient `a / b` of two naturals rounded to the nearest natural, a tie
going to the even neighbour. -/
def roundHalfEven (a b : ℕ) : ℕ :=
  if 2 * (a % b) < b then a / b
  else if b < 2 * (a % b) then a / b + 1
  else if (a / b) % 2 = 0 then a / b
  else a / b + 1

/-- The position of the leading bit of `n`, found by halving at most `fuel`
times. -/
def bitIndex.go : ℕ → ℕ → ℕ
  | 0, _ => 0
  | fuel + 1, n => if n < 2 then 0 else bitIndex.go fuel (n / 2) + 1

/-- The position of the leading bit of `n`: the `k` with `2 ^ k ≤ n < 2 ^ (k + 1)`
for a positive `n`. -/
def bitIndex (n : ℕ) : ℕ := bitIndex.go n n

/-- The binary exponent of the positive rational `a / b`: the `e` with
`2 ^ e ≤ a / b < 2 ^ (e + 1)`. -/
def floorLog2 (a b : ℕ) : ℤ :=
  let d : ℤ := (bitIndex a : ℤ) - (bitIndex b : ℤ)
  if b * 2 ^ d.toNat ≤ a * 2 ^ (-d).toNat then d else d - 1

/-- The positive rational `a / b` rounded to binary64: 53 significant bits, the
exponent of the last bit not below `-1074` (subnormals), round to nearest with
ties to even, and `+Inf` once the rounded value reaches `2 ^ 1024`. -/
def roundPos (a b : ℕ) : Float64 :=
  let s : ℤ := max (floorLog2 a b) (-1022) - 52
  let m : ℕ := roundHalfEven (a * 2 ^ (-s).toNat) (b * 2 ^ s.toNat)
  if 2 ^ 1024 ≤ m * 2 ^ s.toNat then Float64.inf false
  else Float64.finite (mkRat (m * 2 ^ s.toNat) (2 ^ (-s).toNat))

namespace Float64

/-- Negation. -/
def neg : Float64 → Float64
  | finite q => finite (-q)
  | inf s => inf (!s)
  | nan => nan

/-- The binary64 value nearest to the rational `q`. -/
def round (q : ℚ) : Float64 :=
  if q = 0 then finite 0
  else if 0 < q then roundPos q.num.natAbs q.den
  else neg (roundPos q.num.natAbs q.den)

/-- The conversion `float64(n)` of an integer. -/
def ofInt (n : ℤ) : Float64 := round n

/-- The sum `x + y`. -/
def add : Float64 → Float64 → Float64
  | finite a, finite b => round (a + b)
  | finite _, inf s => inf s
  | inf s, finite _ => inf s
  | inf s, inf t => if s = t then inf s else nan
  | _, _ => nan

/-- The quotient `x / y`. A zero divisor is taken to be `+0`, which is what the
conversion of the integer `0` gives. -/
def div : Float64 → Float64 → Float64
  | finite a, finite b =>
    if b = 0 then (if a = 0 then nan else inf (decide (a < 0))) else round (a / b)
  | finite _, inf _ => finite 0
  | inf s, finite b => inf (s != decide (b < 0))
  | _, _ => nan

/-- The comparison `x < y`. -/
def lt : Float64 → Float64 → Bool
  | finite a, finite b => decide (a < b)
  | finite _, inf s => !s
  | inf s, finite _ => s
  | inf s, inf t => s && !t
  | _, _ => false

/-- The conversion `int(x)`: the fractional part is discarded (truncation toward
zero). The Go specification leaves the result implementation-specific when the
truncated value does not fit the 64-bit `int`, and for infinities and NaN:
`none`. -/
def toInt : Float64 → Option ℤ
  | finite q =>
    let t := q.num.tdiv q.den
    if -2 ^ 63 ≤ t ∧ t < 2 ^ 63 then some t else none
  | _ => none

end Float64

/-! ## Images -/

/-- The type `image.Point`. -/
structure Point where
  X : ℤ
  Y : ℤ
deriving DecidableEq

/-- The type `image.Rectangle`. -/
structure Rectangle where
  Min : Point
  Max : Point
deriving DecidableEq

/-- The method `Rectangle.Dx`. -/
def Rectangle.Dx (r : Rectangle) : ℤ := r.Max.X - r.Min.X

/-- The method `Rectangle.Dy`. -/
def Rectangle.Dy (r : Rectangle) : ℤ := r.Max.Y - r.Min.Y

/-- A colour as `color.Color` exposes it: the four 16-bit alpha-premultiplied
channels that its method `RGBA` returns. -/
structure Color where
  R : ℕ
  G : ℕ
  B : ℕ
  A : ℕ
deriving DecidableEq

/-- A non-nil value of the interface `image.Image`: its `Bounds` and its `At`.
The bounds are well formed (`Min ≤ Max` on both axes), as those of every image
of the standard library are. -/
structure Image where
  Bounds : Rectangle
  At : ℤ → ℤ → Color
  wfX : Bounds.Min.X ≤ Bounds.Max.X
  wfY : Bounds.Min.Y ≤ Bounds.Max.Y

/-- What ends an execution other than a return: the run-time panics of the
program, a conversion of the frame delay whose result the Go specification would
leave to the implementation, and the exhaustion of the fuel of a loop of this
embedding. -/
inductive Panic where
  | makesliceLenOutOfRange
  | indexOutOfRange (index len : ℕ)
  | nilDereference
  | implementationSpecific
  | outOfFuel
deriving DecidableEq

deriving instance DecidableEq for Except

/-! ## getFrames -/

/-- The lookup `centerPoint[key]` in a `map[string]int`: the zero value for a
missing key (and for a nil map, which has no key). -/
def mapIndex (centerPoint : String → Option ℤ) (key : String) : ℤ :=
  (centerPoint key).getD 0

/-- Lines 79-86 of `getFrames`: the pivot handed to every rotation. -/
def getFrames.pivot (img : Image) (centerPoint : String → Option ℤ) : Point :=
  let x := mapIndex centerPoint "x"
  let x := if x = 0 then (img.Bounds.Dx).tdiv 2 else x
  let y := mapIndex centerPoint "y"
  let y := if y = 0 then (img.Bounds.Dy).tdiv 2 else y
  ⟨x, y⟩

/-- The loop of lines 91-98 of `getFrames`, from the state `(i, ang, images)`:
while `ang < 360`, slot `i` receives the image rotated by `ang`, then `i` is
incremented and `angle` is added to `ang`. A write to a slot that does not exist
is the index-out-of-range panic of `images[i] = ...`, which ends the program.
`fuel` bounds the number of iterations; `len(images) + 1 - i` always suffices,
because the iteration with `i = len(images)` panics. -/
def getFrames.loop (rotate : Image → Float64 → Point → Image) (img : Image)
    (pivot : Point) (angle : Float64) :
    ℕ → ℕ → Float64 → List (Option Image) → Except Panic (List (Option Image))
  | 0, _, _, _ => Except.error Panic.outOfFuel
  | fuel + 1, i, ang, images =>
    if Float64.lt ang (Float64.finite 360) then
      if i < images.length then
        getFrames.loop rotate img pivot angle fuel (i + 1) (Float64.add ang angle)
          (images.set i (some (rotate img ang pivot)))
      else Except.error (Panic.indexOutOfRange i images.length)
    else Except.ok images

/-- The function `getFrames`. `rotate img ang pivot` stands for the call
`transform.Rotate(img, ang, &transform.RotationOptions{Pivot: &image.Point{x, y}})`
of the library `bild`. The result is the slice `images`, a `none` being a slot
that is still nil. -/
def getFrames (rotate : Image → Float64 → Point → Image) (img : Image) (frames : ℤ)
    (centerPoint : String → Option ℤ) : Except Panic (List (Option Image)) :=
  if frames < 0 then Except.error Panic.makesliceLenOutOfRange
  else
    let images : List (Option Image) := List.replicate frames.toNat none
    let angle := Float64.div (Float64.ofInt 360) (Float64.ofInt frames)
    getFrames.loop rotate img (getFrames.pivot img centerPoint) angle
      (frames.toNat + 1) 0 (Float64.finite 0) images

/-- The angles at which the loop of `getFrames` writes, from the state `(i, ang)`
with `len` slots: the control skeleton of `getFrames.loop`, without the images. -/
def getFrames.angles (angle : Float64) (len : ℕ) :
    ℕ → ℕ → Float64 → Except Panic (List Float64)
  | 0, _, _ => Except.error Panic.outOfFuel
  | fuel + 1, i, ang =>
    if Float64.lt ang (Float64.finite 360) then
      if i < len then
        (getFrames.angles angle len fuel (i + 1) (Float64.add ang angle)).map (ang :: ·)
      else Except.error (Panic.indexOutOfRange i len)
    else Except.ok []

/-! ## The standard library: rectangles, `image.Paletted`, `image/draw` -/

/-- The method `Point.Sub`. -/
def Point.Sub (p q : Point) : Point := ⟨p.X - q.X, p.Y - q.Y⟩

/-- The method `Rectangle.Empty`. -/
def Rectangle.Empty (r : Rectangle) : Bool :=
  decide (r.Min.X ≥ r.Max.X) || decide (r.Min.Y ≥ r.Max.Y)

/-- The method `Rectangle.Add`: the rectangle translated by `p`. -/
def Rectangle.Add (r : Rectangle) (p : Point) : Rectangle :=
  ⟨⟨r.Min.X + p.X, r.Min.Y + p.Y⟩, ⟨r.Max.X + p.X, r.Max.Y + p.Y⟩⟩

/-- The method `Rectangle.Intersect`; the empty intersection is the zero
rectangle `image.ZR`. -/
def Rectangle.Intersect (r s : Rectangle) : Rectangle :=
  let r1 : Rectangle :=
    ⟨⟨if r.Min.X < s.Min.X then s.Min.X else r.Min.X,
      if r.Min.Y < s.Min.Y then s.Min.Y else r.Min.Y⟩,
     ⟨if r.Max.X > s.Max.X then s.Max.X else r.Max.X,
      if r.Max.Y > s.Max.Y then s.Max.Y else r.Max.Y⟩⟩
  if r1.Empty then ⟨⟨0, 0⟩, ⟨0, 0⟩⟩ else r1

/-- The method `Point.In`. -/
def Point.In (p : Point) (r : Rectangle) : Bool :=
  decide (r.Min.X ≤ p.X) && decide (p.X < r.Max.X) &&
    decide (r.Min.Y ≤ p.Y) && decide (p.Y < r.Max.Y)

/-- The type `image.Paletted`: one palette index (a byte) per pixel, row after
row. -/
structure Paletted where
  Pix : List ℕ
  Stride : ℤ
  Rect : Rectangle
  Palette : List Color

/-- The constructor `image.NewPaletted`. -/
def NewPaletted (r : Rectangle) (p : List Color) : Paletted :=
  { Pix := List.replicate (r.Dx * r.Dy).toNat 0, Stride := r.Dx, Rect := r, Palette := p }

/-- The method `Paletted.PixOffset`. -/
def Paletted.PixOffset (p : Paletted) (x y : ℤ) : ℤ :=
  (y - p.Rect.Min.Y) * p.Stride + (x - p.Rect.Min.X) * 1

/-- The method `Paletted.ColorIndexAt`. -/
def Paletted.ColorIndexAt (p : Paletted) (x y : ℤ) : ℕ :=
  if (Point.mk x y).In p.Rect then p.Pix.getD (p.PixOffset x y).toNat 0 else 0

/-- The method `Paletted.At`: the palette entry of the pixel; `none` is the nil
colour of an empty palette. -/
def Paletted.At (p : Paletted) (x y : ℤ) : Option Color :=
  if p.Palette.length = 0 then none
  else if (Point.mk x y).In p.Rect then p.Palette.get? (p.Pix.getD (p.PixOffset x y).toNat 0)
  else p.Palette.get? 0

/-- The method `RGBA` of `color.RGBA{r, g, b, a}`: each 8-bit channel `v` becomes
`v | v << 8`. -/
def rgba8 (r g b a : ℕ) : Color := ⟨r * 0x101, g * 0x101, b * 0x101, a * 0x101⟩

/-- The table `palette.WebSafe` of `image/color/palette`: the 216 opaque colours
whose channels are multiples of `0x33`, red slowest and blue fastest. -/
def WebSafe : List Color :=
  (List.range 6).flatMap fun r => (List.range 6).flatMap fun g => (List.range 6).map fun b =>
    rgba8 (0x33 * r) (0x33 * g) (0x33 * b) 0xff

/-- The colour of `image.Transparent`, the uniform image of `color.Transparent`. -/
def Transparent : Color := ⟨0, 0, 0, 0⟩

/-- The function `clip` of `image/draw` without a mask: the rectangle `r`
restricted to the destination bounds and to the source bounds (moved so that
`sp` lies on `r.Min`), and `sp` moved along with `r.Min`. -/
def clip (dstBounds : Rectangle) (r : Rectangle) (srcBounds : Rectangle) (sp : Point) :
    Rectangle × Point :=
  let orig := r.Min
  let r := r.Intersect dstBounds
  let r := r.Intersect (srcBounds.Add (orig.Sub sp))
  let dx := r.Min.X - orig.X
  let dy := r.Min.Y - orig.Y
  if dx = 0 ∧ dy = 0 then (r, sp) else (r, ⟨sp.X + dx, sp.Y + dy⟩)

/-- Four `int32` values, one per channel R, G, B, A. Channels are at most `0xffff`
by the contract of `color.Color` and a propagated error at most `16 * 0xffff` in
size, so no `int32` operation of `drawPaletted` overflows. -/
structure Quad where
  r : ℤ
  g : ℤ
  b : ℤ
  a : ℤ
deriving DecidableEq

/-- The function `clamp` of `image/draw`. -/
def clamp (i : ℤ) : ℤ := if i < 0 then 0 else if i > 0xffff then 0xffff else i

/-- The function `sqDiff` of `image/draw`: `d := uint32(x - y); (d * d) >> 2`,
in wrapping 32-bit unsigned arithmetic. -/
def sqDiff (x y : ℤ) : ℕ :=
  let d : ℕ := ((x - y) % 2 ^ 32).toNat
  ((d * d) % 2 ^ 32) / 4

/-- The palette search of `drawPaletted` from index `index` on: the first entry
that brings the sum of squared differences below every earlier one, the search
stopping at a sum of `0`. -/
def drawPaletted.closest (e : Quad) : List Quad → ℕ → ℕ → ℕ → ℕ
  | [], _, bestIndex, _ => bestIndex
  | p :: rest, index, bestIndex, bestSum =>
    let sum := (sqDiff e.r p.r + sqDiff e.g p.g + sqDiff e.b p.b + sqDiff e.a p.a) % 2 ^ 32
    if sum < bestSum then
      if sum = 0 then index
      else drawPaletted.closest e rest (index + 1) index sum
    else drawPaletted.closest e rest (index + 1) bestIndex bestSum

/-- The state of the pixel loop of `drawPaletted`: the destination `Pix` and the
two error rows, indexed from `0` to `r.Dx() + 1`. -/
structure DrawState where
  pix : List ℕ
  quantErrorCurr : ℕ → Quad
  quantErrorNext : ℕ → Quad

/-- The update `buf[i][k] += e[k] * w` for the four channels `k`. -/
def addError (buf : ℕ → Quad) (i : ℕ) (e : Quad) (w : ℤ) : ℕ → Quad :=
  Function.update buf i
    ⟨(buf i).r + e.r * w, (buf i).g + e.g * w, (buf i).b + e.b * w, (buf i).a + e.a * w⟩

/-- The colour of a source pixel plus the error propagated to it, clamped, then
the index of the closest palette entry and the error left over. -/
def drawPaletted.quantize (palette : List Quad) (c : Color) (q : Quad) : ℕ × Quad :=
  let er := clamp ((c.R : ℤ) + (q.r).tdiv 16)
  let eg := clamp ((c.G : ℤ) + (q.g).tdiv 16)
  let eb := clamp ((c.B : ℤ) + (q.b).tdiv 16)
  let ea := clamp ((c.A : ℤ) + (q.a).tdiv 16)
  let bestIndex := drawPaletted.closest ⟨er, eg, eb, ea⟩ palette 0 0 (2 ^ 32 - 1)
  let p := palette.getD bestIndex ⟨0, 0, 0, 0⟩
  (bestIndex, ⟨er - p.r, eg - p.g, eb - p.b, ea - p.a⟩)

/-- The body of the pixel loop of `drawPaletted` for a paletted destination and
Floyd-Steinberg dithering, at column `x` of row `y`: `offset` is
`dst.PixOffset(r.Min.X, r.Min.Y)`. The written index lies inside `Pix` because
`r` was clipped to the destination. -/
def drawPaletted.pixel (palette : List Quad) (src : Image) (sp : Point) (offset stride : ℤ)
    (y : ℕ) (st : DrawState) (x : ℕ) : DrawState :=
  let out := drawPaletted.quantize palette (src.At (sp.X + x) (sp.Y + y)) (st.quantErrorCurr (x + 1))
  let e := out.2
  let next := addError st.quantErrorNext (x + 0) e 3
  let next := addError next (x + 1) e 5
  let next := addError next (x + 2) e 1
  { pix := st.pix.set (offset + (y * stride + x)).toNat (out.1 % 256)
    quantErrorCurr := addError st.quantErrorCurr (x + 2) e 7
    quantErrorNext := next }

/-- One row of `drawPaletted`: the pixels `x = 0 .. w - 1`, after which the error
rows are swapped and the new next row is zeroed. -/
def drawPaletted.row (palette : List Quad) (src : Image) (sp : Point) (offset stride : ℤ)
    (w : ℕ) (st : DrawState) (y : ℕ) : DrawState :=
  let st := (List.range w).foldl (drawPaletted.pixel palette src sp offset stride y) st
  { pix := st.pix, quantErrorCurr := st.quantErrorNext, quantErrorNext := fun _ => ⟨0, 0, 0, 0⟩ }

/-- The state of the pixel loop after `t` pixels in row order, when every pixel
got the index `k` and no error was left: the first `t` slots hold `k`. -/
def drawnState (len t k : ℕ) : DrawState :=
  { pix := List.replicate t k ++ List.replicate (len - t) 0
    quantErrorCurr := fun _ => ⟨0, 0, 0, 0⟩
    quantErrorNext := fun _ => ⟨0, 0, 0, 0⟩ }

/-- The function `drawPaletted` of `image/draw` for a destination of type
`*image.Paletted` with `floydSteinberg` set, on a non-empty rectangle `r`. -/
def drawPaletted (dst : Paletted) (r : Rectangle) (src : Image) (sp : Point) : Paletted :=
  let palette : List Quad := dst.Palette.map fun c => ⟨c.R, c.G, c.B, c.A⟩
  let st : DrawState :=
    { pix := dst.Pix, quantErrorCurr := fun _ => ⟨0, 0, 0, 0⟩, quantErrorNext := fun _ => ⟨0, 0, 0, 0⟩ }
  let st := (List.range r.Dy.toNat).foldl
    (drawPaletted.row palette src sp (dst.PixOffset r.Min.X r.Min.Y) dst.Stride r.Dx.toNat) st
  { dst with Pix := st.pix }

/-- The method `Draw` of `draw.FloydSteinberg`. -/
def FloydSteinberg.Draw (dst : Paletted) (r : Rectangle) (src : Image) (sp : Point) : Paletted :=
  let c := clip dst.Rect r src.Bounds sp
  if c.1.Empty then dst else drawPaletted dst c.1 src c.2

/-! ## renderFrame and makeGif -/

/-- The constant `FPS`. -/
def FPS : ℚ := 50

/-- The fixed palette of `renderFrame`: `append(palette.WebSafe, image.Transparent)`. -/
def renderFrame.palette : List Color := WebSafe ++ [Transparent]

/-- The function `renderFrame`. The options carry no `Quantizer`, so the palette
stays the one given to `image.NewPaletted`. -/
def renderFrame (img : Image) : Paletted :=
  let quantizer : Option (ℕ → Image → List Color) := none
  let pimg := NewPaletted img.Bounds renderFrame.palette
  let pimg := match quantizer with
    | some quantize => { pimg with Palette := quantize 217 img }
    | none => pimg
  FloydSteinberg.Draw pimg img.Bounds img ⟨0, 0⟩

/-- The constant `gif.DisposalPrevious`. -/
def DisposalPrevious : ℕ := 0x03

/-- The type `gif.GIF`, with the fields that `makeGif` sets. A `none` in `Image`
is a nil pointer. -/
structure GIF where
  Image : List (Option Paletted)
  Delay : List ℤ
  LoopCount : ℤ
  Disposal : List ℕ

/-- The three slices that the goroutines of `makeGif` fill. -/
structure makeGif.Slots where
  pi : List (Option Paletted)
  delay : List ℤ
  disposal : List ℕ

/-- The loop `for i, frame := range frames` of `makeGif` from index `i` on: slot
`i` of each slice is written from `frame`. A nil frame is the nil dereference of
`img.Bounds()` in `renderFrame`. -/
def makeGif.loop (frameDelay : Float64) :
    List (Option Image) → ℕ → makeGif.Slots → Except Panic makeGif.Slots
  | [], _, s => Except.ok s
  | none :: _, _, _ => Except.error Panic.nilDereference
  | some frame :: rest, i, s =>
    match Float64.toInt frameDelay with
    | none => Except.error Panic.implementationSpecific
    | some d =>
      makeGif.loop frameDelay rest (i + 1)
        { pi := s.pi.set i (some (renderFrame frame))
          delay := s.delay.set i d
          disposal := s.disposal.set i DisposalPrevious }

/-- The function `makeGif`. -/
def makeGif (frames : List (Option Image)) : Except Panic GIF :=
  let frameDelay : Float64 := Float64.round (100 / FPS)
  let slots : makeGif.Slots :=
    { pi := List.replicate frames.length none
      delay := List.replicate frames.length 0
      disposal := List.replicate frames.length 0 }
  (makeGif.loop frameDelay frames 0 slots).map fun s =>
    { Image := s.pi, Delay := s.delay, LoopCount := 0, Disposal := s.disposal }

/-! ## main -/

/-- The scan of `path.Ext`, from the last byte of the path backwards: `acc` is the
suffix already passed. -/
def Ext.scan : List Char → List Char → List Char
  | [], _ => []
  | c :: rest, acc =>
    if c = '/' then []
    else if c = '.' then c :: acc
    else Ext.scan rest (c :: acc)

/-- The function `path.Ext`: the suffix that starts at the last dot of the last
slash-separated element of the path, empty if that element has no dot. -/
def Ext (path : String) : String := String.mk (Ext.scan path.data.reverse [])

/-- The type `Options`. -/
structure Options where
  Images : List String
  RPS : Float64
  Center : String → Option ℤ
  Debug : Bool

/-- What `main` takes from outside this program: the calls `os.Open` (giving the
bytes of the file), `png.Decode`, `transform.Rotate`, `os.Create` and
`gif.EncodeAll`, an error being carried by its message, and `IntOutOfRange`, the
value that the implementation gives to a conversion `int(x)` that the language
leaves to it (`x` infinite, NaN or outside the 64-bit range). -/
structure World where
  Open : String → Except String (List ℕ)
  Decode : List ℕ → Except String Image
  Rotate : Image → Float64 → Point → Image
  Create : String → Except String Unit
  EncodeAll : GIF → Option String
  IntOutOfRange : Float64 → ℤ

/-- What one run of the command did: the frame counts with which it called
`getFrames`, in order, and how it ended: `ok none` is a nil error, `ok (some e)`
the returned error `e`. -/
structure Run where
  calls : List ℤ
  result : Except Panic (Option String)

/-- The frame count of line 58, `int(FPS/options.RPS)`. -/
def main.frameCount (rps : Float64) : Option ℤ :=
  Float64.toInt (Float64.div (Float64.finite FPS) rps)

/-- The argument `int(FPS/options.RPS)` of line 58 as the program computes it:
the truncated quotient where the language defines the conversion, and the value
of the implementation where it does not. Nothing checks it. -/
def main.frames (w : World) (rps : Float64) : ℤ :=
  (main.frameCount rps).getD (w.IntOutOfRange (Float64.div (Float64.finite FPS) rps))

/-- The case `".png"` of the switch of `main`, lines 50-64. Once the file is
decoded, `getFrames` is always called. -/
def main.png (w : World) (options : Options) (image : String) : Run :=
  match w.Open image with
  | Except.error err => ⟨[], Except.ok (some err)⟩
  | Except.ok file =>
    match w.Decode file with
    | Except.error err => ⟨[], Except.ok (some err)⟩
    | Except.ok img =>
      let n := main.frames w options.RPS
      match getFrames w.Rotate img n options.Center with
      | Except.error p => ⟨[n], Except.error p⟩
      | Except.ok frames =>
        match makeGif frames with
        | Except.error p => ⟨[n], Except.error p⟩
        | Except.ok result =>
          match w.Create "out.gif" with
          | Except.error err => ⟨[n], Except.ok (some err)⟩
          | Except.ok _ => ⟨[n], Except.ok (w.EncodeAll result)⟩

/-- The loop `for _, image := range options.Images` of `main`, lines 46-72. -/
def main.loop (w : World) (options : Options) : List String → Run
  | [] => ⟨[], Except.ok none⟩
  | image :: rest =>
    let ext := Ext image
    if ext = ".png" then main.png w options image
    else if ext = ".jpg" ∨ ext = ".jpeg" then main.loop w options rest
    else ⟨[], Except.ok (some "unknown image type")⟩

/-- The function that `main` hands to `yoshi`, lines 37-73. -/
def main.run (w : World) (options : Options) : Run :=
  if options.Images.length = 0 then ⟨[], Except.ok (some "no images specified")⟩
  else main.loop w options options.Images

/-! ## Sample inputs -/

/-- A rotation that returns its argument. -/
def sampleRotate : Image → Float64 → Point → Image := fun img _ _ => img

/-- An image of bounds 100x50, white everywhere. -/
def sampleImage : Image :=
  ⟨⟨⟨0, 0⟩, ⟨100, 50⟩⟩, fun _ _ => ⟨0xffff, 0xffff, 0xffff, 0xffff⟩, by decide, by decide⟩

/-- An image of width zero. -/
def emptyImage : Image :=
  ⟨⟨⟨0, 0⟩, ⟨0, 50⟩⟩, fun _ _ => ⟨0xffff, 0xffff, 0xffff, 0xffff⟩, by decide, by decide⟩

/-- A white image of one pixel whose bounds start at `(1, 0)`. -/
def shiftedImage : Image :=
  ⟨⟨⟨1, 0⟩, ⟨2, 1⟩⟩, fun _ _ => ⟨0xffff, 0xffff, 0xffff, 0xffff⟩, by decide, by decide⟩

/-- A world in which every file opens and decodes to `sampleImage`, the output is
written without error, and a conversion left to the implementation gives the
least `int`, as on amd64. -/
def sampleWorld : World :=
  { Open := fun _ => Except.ok []
    Decode := fun _ => Except.ok sampleImage
    Rotate := sampleRotate
    Create := fun _ => Except.ok ()
    EncodeAll := fun _ => none
    IntOutOfRange := fun _ => -2 ^ 63 }

/-- The centre override that has no key. -/
def noCenter : String → Option ℤ := fun _ => none

/-! ## Slices filled slot by slot -/

/-- The first `i + 1` slots after a write to slot `i`. -/
theorem take_succ_set {α : Type} (l : List α) (i : ℕ) (v : α) (hi : i < l.length) :
    (l.set i v).take (i + 1) = l.take i ++ [v] := by
  induction l generalizing i with
  | nil => simp at hi
  | cons a l ih =>
    cases i with
    | zero => simp
    | succ i =>
      simp only [List.length_cons, Nat.add_lt_add_iff_right] at hi
      simp [ih i hi]

/-- Writing slot `i` and then the slots after it is writing the slots from `i` on. -/
theorem set_fill {α : Type} (l : List α) (i : ℕ) (v : α) (rest : List α) (hi : i < l.length) :
    (l.set i v).take (i + 1) ++ rest ++ (l.set i v).drop (i + 1 + rest.length)
      = l.take i ++ (v :: rest) ++ l.drop (i + (rest.length + 1)) := by
  have h2 : (l.set i v).drop (i + 1 + rest.length) = l.drop (i + (rest.length + 1)) := by
    rw [List.drop_set_of_lt _ _ (by omega)]
    congr 1
    omega
  rw [take_succ_set l i v hi, h2]
  simp

/-! ## getFrames: the loop and its skeleton -/

/-- The loop of `getFrames` ends as its skeleton `getFrames.angles` does, and on a
normal end the slots from `i` on hold the image rotated by the angles of the
skeleton, in order. -/
theorem getFrames_loop_eq (rotate : Image → Float64 → Point → Image) (img : Image)
    (pivot : Point) (angle : Float64) (fuel : ℕ) :
    ∀ (i : ℕ) (ang : Float64) (images : List (Option Image)), i ≤ images.length →
      getFrames.loop rotate img pivot angle fuel i ang images
        = (getFrames.angles angle images.length fuel i ang).map fun as =>
            images.take i ++ as.map (fun a => some (rotate img a pivot))
              ++ images.drop (i + as.length) := by
  induction fuel with
  | zero => intro i ang images _; rfl
  | succ fuel ih =>
    intro i ang images hi
    unfold getFrames.loop getFrames.angles
    by_cases hlt : Float64.lt ang (Float64.finite 360) = true
    · by_cases hlen : i < images.length
      · rw [if_pos hlt, if_pos hlen, if_pos hlt, if_pos hlen]
        rw [ih (i + 1) (Float64.add ang angle) _ (by rw [List.length_set]; omega)]
        rw [List.length_set]
        cases getFrames.angles angle images.length fuel (i + 1) (Float64.add ang angle) with
        | error e => rfl
        | ok as =>
          show Except.ok _ = Except.ok _
          congr 1
          simpa using set_fill images i (some (rotate img ang pivot))
            (as.map fun a => some (rotate img a pivot)) hlen
      · rw [if_pos hlt, if_neg hlen, if_pos hlt, if_neg hlen]
        rfl
    · rw [if_neg hlt, if_neg hlt]
      show Except.ok _ = Except.ok _
      simp

/-- The outcome of `getFrames` for a frame count `n ≥ 0`, through the skeleton of
its loop. -/
theorem getFrames_eq (rotate : Image → Float64 → Point → Image) (img : Image) (n : ℕ)
    (centerPoint : String → Option ℤ) :
    getFrames rotate img (n : ℤ) centerPoint
      = (getFrames.angles (Float64.div (Float64.ofInt 360) (Float64.ofInt n)) n (n + 1) 0
          (Float64.finite 0)).map fun as =>
            as.map (fun a => some (rotate img a (getFrames.pivot img centerPoint)))
              ++ List.replicate (n - as.length) none := by
  unfold getFrames
  rw [if_neg (by omega)]
  simp only [Int.toNat_ofNat]
  rw [getFrames_loop_eq _ _ _ _ _ _ _ _ (Nat.zero_le _)]
  simp

/-- The loop of `getFrames` never changes the number of slots. -/
theorem getFrames_loop_length (rotate : Image → Float64 → Point → Image) (img : Image)
    (pivot : Point) (angle : Float64) (fuel : ℕ) :
    ∀ (i : ℕ) (ang : Float64) (images out : List (Option Image)),
      getFrames.loop rotate img pivot angle fuel i ang images = Except.ok out →
        out.length = images.length := by
  induction fuel with
  | zero => intro i ang images out h; cases h
  | succ fuel ih =>
    intro i ang images out h
    unfold getFrames.loop at h
    by_cases hlt : Float64.lt ang (Float64.finite 360) = true
    · by_cases hlen : i < images.length
      · rw [if_pos hlt, if_pos hlen] at h
        rw [ih _ _ _ _ h, List.length_set]
      · rw [if_pos hlt, if_neg hlen] at h
        cases h
    · rw [if_neg hlt] at h
      cases h
      rfl

/-- A slice returned by `getFrames` has `frames` slots. -/
theorem getFrames_length (rotate : Image → Float64 → Point → Image) (img : Image) (n : ℤ)
    (centerPoint : String → Option ℤ) (out : List (Option Image))
    (h : getFrames rotate img n centerPoint = Except.ok out) : (out.length : ℤ) = n := by
  unfold getFrames at h
  by_cases hn : n < 0
  · rw [if_pos hn] at h
    cases h
  · rw [if_neg hn] at h
    rw [getFrames_loop_length _ _ _ _ _ _ _ _ _ h, List.length_replicate]
    omega

/-- Mapping to one-element lists and joining them is mapping. -/
theorem flatMap_singleton_map {α β : Type} (f : α → β) (l : List α) :
    (l.flatMap fun a => [f a]) = l.map f := by
  induction l with
  | nil => rfl
  | cons a l ih => simp [List.flatMap_cons, ih]

/-- The angles written for a frame count that divides 360: the loop runs `n` times
and the `i`-th angle is exactly `i * (360 / n)`, every intermediate value being an
integer. -/
theorem angles_of_dvd :
    ∀ n : ℕ, n < 361 → 0 < n → 360 % n = 0 →
      getFrames.angles (Float64.div (Float64.ofInt 360) (Float64.ofInt n)) n (n + 1) 0
          (Float64.finite 0)
        = Except.ok ((List.range n).map fun i => Float64.finite ((i : ℚ) * (360 / (n : ℚ)))) := by
  decide!

/-- For a frame count `n ≥ 1` that divides 360, `getFrames` returns `n` filled
slots, slot `i` holding the image rotated by `i * (360 / n)` about the pivot. -/
theorem getFrames_of_dvd (rotate : Image → Float64 → Point → Image) (img : Image) (n : ℕ)
    (centerPoint : String → Option ℤ) (hpos : 0 < n) (hdvd : n ∣ 360) :
    getFrames rotate img (n : ℤ) centerPoint
      = Except.ok ((List.range n).map fun i =>
          some (rotate img (Float64.finite ((i : ℚ) * (360 / (n : ℚ))))
            (getFrames.pivot img centerPoint))) := by
  have hle : n < 361 := Nat.lt_succ_of_le (Nat.le_of_dvd (by norm_num) hdvd)
  rw [getFrames_eq, angles_of_dvd n hle hpos (Nat.mod_eq_zero_of_dvd hdvd)]
  show Except.ok _ = Except.ok _
  simp [List.map_map, Function.comp_def]

/-! ## makeGif -/

/-- The delay of every frame: `int(100 / FPS)` is `2`. -/
theorem frameDelay_eq : Float64.toInt (Float64.round (100 / FPS)) = some 2 := by
  decide!

/-- The loop of `makeGif` over frames that are not nil: the slots from `i` on
receive the rendered frames, the delay and the disposal method, in order. -/
theorem makeGif_loop_eq (fd : Float64) (d : ℤ) (hd : Float64.toInt fd = some d) :
    ∀ (frames : List Image) (i : ℕ) (s : makeGif.Slots),
      i + frames.length ≤ s.pi.length → i + frames.length ≤ s.delay.length →
      i + frames.length ≤ s.disposal.length →
      makeGif.loop fd (frames.map some) i s = Except.ok
        { pi := s.pi.take i ++ frames.map (fun f => some (renderFrame f))
            ++ s.pi.drop (i + frames.length)
          delay := s.delay.take i ++ List.replicate frames.length d
            ++ s.delay.drop (i + frames.length)
          disposal := s.disposal.take i ++ List.replicate frames.length DisposalPrevious
            ++ s.disposal.drop (i + frames.length) } := by
  intro frames
  induction frames with
  | nil =>
    intro i s _ _ _
    simp [makeGif.loop]
  | cons f rest ih =>
    intro i s h1 h2 h3
    simp only [List.length_cons] at h1 h2 h3
    simp only [List.map_cons, makeGif.loop, hd]
    rw [ih (i + 1) _ (by simp only [List.length_set]; omega)
      (by simp only [List.length_set]; omega) (by simp only [List.length_set]; omega)]
    have e1 := set_fill s.pi i (some (renderFrame f))
      (rest.map fun f => some (renderFrame f)) (by omega)
    have e2 := set_fill s.delay i d (List.replicate rest.length d) (by omega)
    have e3 := set_fill s.disposal i DisposalPrevious
      (List.replicate rest.length DisposalPrevious) (by omega)
    simp only [List.length_map, List.length_replicate] at e1 e2 e3
    simp only [List.length_cons, List.map_cons, List.replicate_succ]
    rw [e1, e2, e3]

/-- The record that `makeGif` returns for frames that are not nil. -/
theorem makeGif_eq (frames : List Image) :
    makeGif (frames.map some) = Except.ok
      { Image := frames.map fun f => some (renderFrame f)
        Delay := List.replicate frames.length 2
        LoopCount := 0
        Disposal := List.replicate frames.length DisposalPrevious } := by
  unfold makeGif
  dsimp only
  rw [makeGif_loop_eq _ 2 frameDelay_eq frames 0 _ (by simp) (by simp) (by simp)]
  show Except.ok _ = Except.ok _
  simp

/-- The loop of `makeGif` never changes the length of its three slices. -/
theorem makeGif_loop_length (fd : Float64) :
    ∀ (frames : List (Option Image)) (i : ℕ) (s out : makeGif.Slots),
      makeGif.loop fd frames i s = Except.ok out →
        out.pi.length = s.pi.length ∧ out.delay.length = s.delay.length
          ∧ out.disposal.length = s.disposal.length := by
  intro frames
  induction frames with
  | nil =>
    intro i s out h
    simp only [makeGif.loop] at h
    cases h
    exact ⟨rfl, rfl, rfl⟩
  | cons f rest ih =>
    intro i s out h
    cases f with
    | none => simp only [makeGif.loop] at h; cases h
    | some f =>
      simp only [makeGif.loop] at h
      cases hd : Float64.toInt fd with
      | none => rw [hd] at h; cases h
      | some d =>
        rw [hd] at h
        have := ih _ _ _ h
        simpa using this

/-- The three slices of a record returned by `makeGif` are as long as the frame
sequence, nil frames or not. -/
theorem makeGif_length (frames : List (Option Image)) (g : GIF)
    (h : makeGif frames = Except.ok g) :
    g.Image.length = frames.length ∧ g.Delay.length = frames.length
      ∧ g.Disposal.length = frames.length := by
  unfold makeGif at h
  dsimp only at h
  cases hl : makeGif.loop (Float64.round (100 / FPS)) frames 0
      { pi := List.replicate frames.length none
        delay := List.replicate frames.length 0
        disposal := List.replicate frames.length 0 } with
  | error e => simp only [hl] at h; cases h
  | ok s =>
    simp only [hl] at h
    have hs := makeGif_loop_length _ _ _ _ _ hl
    cases h
    simpa using hs

/-- The bounds of a rendered frame are those of the frame. -/
theorem renderFrame_Rect (img : Image) : (renderFrame img).Rect = img.Bounds := by
  unfold renderFrame FloydSteinberg.Draw
  dsimp only
  split <;> rfl

/-- Go's integer division of a value that is not negative by 2 is the floor of
the quotient. -/
theorem tdiv_two_eq_floor (d : ℤ) (h : 0 ≤ d) : d.tdiv 2 = ⌊(d : ℚ) / 2⌋ := by
  rw [Int.tdiv_eq_ediv h (by norm_num)]
  have := Rat.floor_intCast_div_natCast d 2
  simpa using this.symm

/-! ## Rounding -/

/-- The leading-bit position found with enough fuel brackets `n` between two
consecutive powers of two. -/
theorem bitIndex_go_spec : ∀ (fuel n : ℕ), n ≤ fuel → n ≠ 0 →
    2 ^ bitIndex.go fuel n ≤ n ∧ n < 2 ^ (bitIndex.go fuel n + 1) := by
  intro fuel
  induction fuel with
  | zero => intro n h h0; omega
  | succ fuel ih =>
    intro n h h0
    unfold bitIndex.go
    by_cases h2 : n < 2
    · rw [if_pos h2]
      constructor <;> simp <;> omega
    · rw [if_neg h2]
      obtain ⟨l, u⟩ := ih (n / 2) (by omega) (by omega)
      rw [pow_succ, pow_succ]
      rw [pow_succ] at u
      constructor <;> omega

/-- The bracket `2 ^ k ≤ n < 2 ^ (k + 1)` of `bitIndex`. -/
theorem bitIndex_spec (n : ℕ) (h0 : n ≠ 0) :
    2 ^ bitIndex n ≤ n ∧ n < 2 ^ (bitIndex n + 1) :=
  bitIndex_go_spec n n (Nat.le_refl n) h0

/-- The exponent of a quotient `a / b ≥ 1` is not negative, and `2 ^ e ≤ a / b`. -/
theorem floorLog2_of_le (a b : ℕ) (hb : b ≠ 0) (hab : b ≤ a) :
    ∃ k : ℕ, floorLog2 a b = (k : ℤ) ∧ b * 2 ^ k ≤ a := by
  have ha : a ≠ 0 := by omega
  obtain ⟨al, au⟩ := bitIndex_spec a ha
  obtain ⟨bl, bu⟩ := bitIndex_spec b hb
  have hle : bitIndex b ≤ bitIndex a := by
    have : 2 ^ bitIndex b < 2 ^ (bitIndex a + 1) := by omega
    have := (Nat.pow_lt_pow_iff_right (by norm_num : 1 < 2)).mp this
    omega
  obtain ⟨d, hd⟩ : ∃ d : ℕ, bitIndex a = bitIndex b + d := ⟨bitIndex a - bitIndex b, by omega⟩
  unfold floorLog2
  have hd' : ((bitIndex a : ℤ) - (bitIndex b : ℤ)) = (d : ℤ) := by omega
  simp only [hd']
  have hneg : (-(d : ℤ)).toNat = 0 := by omega
  simp only [Int.toNat_ofNat, hneg, pow_zero, mul_one]
  by_cases ht : b * 2 ^ d ≤ a
  · rw [if_pos ht]
    exact ⟨d, rfl, ht⟩
  · rw [if_neg ht]
    have hd0 : d ≠ 0 := by
      intro h
      rw [h] at ht
      simp at ht
      omega
    refine ⟨d - 1, by omega, ?_⟩
    have h1 : b * 2 ^ (d - 1) < 2 ^ (bitIndex b + 1) * 2 ^ (d - 1) :=
      Nat.mul_lt_mul_of_pos_right bu (by positivity)
    have h2 : 2 ^ (bitIndex b + 1) * 2 ^ (d - 1) = 2 ^ bitIndex a := by
      rw [← pow_add]
      congr 1
      omega
    omega

/-- The rounded quotient is at least the floor of the quotient. -/
theorem div_le_roundHalfEven (a b : ℕ) : a / b ≤ roundHalfEven a b := by
  unfold roundHalfEven
  split_ifs <;> omega

/-- A finite result of `roundPos` is not negative. -/
theorem roundPos_nonneg (a b : ℕ) (v : ℚ) (h : roundPos a b = Float64.finite v) : 0 ≤ v := by
  unfold roundPos at h
  dsimp only at h
  split at h
  · cases h
  · cases h
    rw [Rat.mkRat_eq_div]
    apply div_nonneg <;> positivity

/-- Rounding a quotient `a / b ≥ 1` gives at least `1`. -/
theorem roundPos_ge_one (a b : ℕ) (hb : b ≠ 0) (hab : b ≤ a) (v : ℚ)
    (h : roundPos a b = Float64.finite v) : 1 ≤ v := by
  obtain ⟨k, hk, hle⟩ := floorLog2_of_le a b hb hab
  unfold roundPos at h
  have hmax : max ((k : ℤ)) (-1022) = (k : ℤ) := by omega
  simp only [hk, hmax] at h
  by_cases hk52 : k < 52
  · have e1 : (-((k : ℤ) - 52)).toNat = 52 - k := by omega
    have e2 : ((k : ℤ) - 52).toNat = 0 := by omega
    simp only [e1, e2, pow_zero, mul_one] at h
    split at h
    · cases h
    · cases h
      rw [Rat.mkRat_eq_div]
      have hm : 2 ^ (52 - k) ≤ roundHalfEven (a * 2 ^ (52 - k)) b := by
        refine le_trans ?_ (div_le_roundHalfEven _ _)
        rw [Nat.le_div_iff_mul_le (by omega)]
        rw [Nat.mul_comm]
        exact Nat.mul_le_mul_right _ hab
      rw [one_le_div (by positivity)]
      push_cast
      exact_mod_cast hm
  · have e1 : (-((k : ℤ) - 52)).toNat = 0 := by omega
    have e2 : ((k : ℤ) - 52).toNat = k - 52 := by omega
    simp only [e1, e2, pow_zero, mul_one] at h
    split at h
    · cases h
    · cases h
      have hm : 1 ≤ roundHalfEven a (b * 2 ^ (k - 52)) := by
        refine le_trans ?_ (div_le_roundHalfEven _ _)
        rw [Nat.le_div_iff_mul_le (by positivity)]
        have : b * 2 ^ (k - 52) ≤ b * 2 ^ k :=
          Nat.mul_le_mul_left _ (Nat.pow_le_pow_right (by norm_num) (by omega))
        omega
      rw [Rat.mkRat_eq_div]
      simp only [Nat.cast_one, div_one]
      have h2 : 1 ≤ 2 ^ (k - 52) := Nat.one_le_two_pow
      have : 1 ≤ roundHalfEven a (b * 2 ^ (k - 52)) * 2 ^ (k - 52) := by
        calc 1 = 1 * 1 := rfl
          _ ≤ roundHalfEven a (b * 2 ^ (k - 52)) * 2 ^ (k - 52) := Nat.mul_le_mul hm h2
      exact_mod_cast this

/-- Rounding a rational `x ≥ 1` gives at least `1`. -/
theorem round_ge_one (x : ℚ) (hx : 1 ≤ x) (v : ℚ) (h : Float64.round x = Float64.finite v) :
    1 ≤ v := by
  unfold Float64.round at h
  have hpos : 0 < x := by linarith
  rw [if_neg (ne_of_gt hpos), if_pos hpos] at h
  have hnum : 0 < x.num := Rat.num_pos.mpr hpos
  have hden : (x.den : ℤ) ≤ x.num := by
    have h1 : (1 : ℚ) ≤ (x.num : ℚ) / (x.den : ℚ) := by rw [Rat.num_div_den]; exact hx
    rw [one_le_div (by exact_mod_cast x.den_pos)] at h1
    exact_mod_cast h1
  exact roundPos_ge_one _ _ x.den_nz (by omega) v h

/-- Rounding a positive rational gives a value that is not negative. -/
theorem round_nonneg (x : ℚ) (hx : 0 < x) (v : ℚ) (h : Float64.round x = Float64.finite v) :
    0 ≤ v := by
  unfold Float64.round at h
  rw [if_neg (ne_of_gt hx), if_pos hx] at h
  exact roundPos_nonneg _ _ v h

/-- The conversion `int(x)` of a finite value that is not negative is its floor. -/
theorem toInt_eq_floor (v : ℚ) (hv : 0 ≤ v) (n : ℤ)
    (h : Float64.toInt (Float64.finite v) = some n) : n = ⌊v⌋ := by
  unfold Float64.toInt at h
  dsimp only at h
  split at h
  · cases h
    rw [Int.tdiv_eq_ediv (Rat.num_nonneg.mpr hv) (by positivity)]
    rw [Rat.floor_def]
  · cases h

/-- The exponent of a quotient `a / b ≥ 1` brackets it from above as well:
`a / b < 2 ^ (e + 1)`. -/
theorem floorLog2_bracket (a b : ℕ) (hb : b ≠ 0) (hab : b ≤ a) :
    ∃ k : ℕ, floorLog2 a b = (k : ℤ) ∧ b * 2 ^ k ≤ a ∧ a < b * 2 ^ (k + 1) := by
  have ha : a ≠ 0 := by omega
  obtain ⟨al, au⟩ := bitIndex_spec a ha
  obtain ⟨bl, bu⟩ := bitIndex_spec b hb
  obtain ⟨k, hk, hle⟩ := floorLog2_of_le a b hb hab
  refine ⟨k, hk, hle, ?_⟩
  have hle' : bitIndex b ≤ bitIndex a := by
    have : 2 ^ bitIndex b < 2 ^ (bitIndex a + 1) := by omega
    have := (Nat.pow_lt_pow_iff_right (by norm_num : 1 < 2)).mp this
    omega
  obtain ⟨d, hd⟩ : ∃ d : ℕ, bitIndex a = bitIndex b + d := ⟨bitIndex a - bitIndex b, by omega⟩
  unfold floorLog2 at hk
  have hd' : ((bitIndex a : ℤ) - (bitIndex b : ℤ)) = (d : ℤ) := by omega
  simp only [hd'] at hk
  have hneg : (-(d : ℤ)).toNat = 0 := by omega
  simp only [Int.toNat_ofNat, hneg, pow_zero, mul_one] at hk
  by_cases ht : b * 2 ^ d ≤ a
  · rw [if_pos ht] at hk
    have hkd : k = d := by omega
    subst hkd
    have h1 : 2 ^ (bitIndex a + 1) = 2 ^ bitIndex b * 2 ^ (k + 1) := by
      rw [← pow_add]
      congr 1
      omega
    have h2 : 2 ^ bitIndex b * 2 ^ (k + 1) ≤ b * 2 ^ (k + 1) := Nat.mul_le_mul_right _ bl
    omega
  · rw [if_neg ht] at hk
    have hd0 : d ≠ 0 := by
      intro h
      rw [h] at ht
      simp at ht
      omega
    have hkd : k + 1 = d := by omega
    rw [hkd]
    omega

/-- Powers of two grow with the exponent. -/
theorem two_pow_lt (e K : ℕ) (he : e < K) : 2 ^ e < 2 ^ K :=
  Nat.pow_lt_pow_right (by decide) he

/-- The rounded quotient is at most one above the floor of the quotient. -/
theorem roundHalfEven_le_succ (a b : ℕ) : roundHalfEven a b ≤ a / b + 1 := by
  unfold roundHalfEven
  split_ifs <;> omega

/-- Rounding a quotient with `1 ≤ a / b < 2 ^ K`, `K` below the overflow exponent,
gives a finite value between `1` and `2 ^ K`. -/
theorem roundPos_bounds (a b K : ℕ) (hb : b ≠ 0) (hab : b ≤ a) (hK : a < b * 2 ^ K)
    (hK1 : K ≤ 1023) :
    ∃ v : ℚ, roundPos a b = Float64.finite v ∧ 1 ≤ v ∧ v ≤ 2 ^ K := by
  obtain ⟨k, hk, hle, hlt⟩ := floorLog2_bracket a b hb hab
  have hkK : k < K := by
    have h1 : b * 2 ^ k < b * 2 ^ K := by omega
    have h2 : 2 ^ k < 2 ^ K := Nat.lt_of_mul_lt_mul_left h1
    exact (Nat.pow_lt_pow_iff_right (by norm_num : 1 < 2)).mp h2
  have hpowK : (2 : ℚ) ^ (k + 1) ≤ 2 ^ K :=
    pow_le_pow_right₀ (by norm_num) (by omega)
  have hgen : ∀ m j e : ℕ, m ≤ 2 ^ 53 → j ≤ e → m * 2 ^ j ≤ 2 ^ (53 + e) := by
    intro m j e hm hj
    rw [pow_add]
    exact Nat.mul_le_mul hm (Nat.pow_le_pow_right (by decide) hj)
  have hfin : ∀ m j : ℕ, m ≤ 2 ^ 53 → j ≤ 970 → ¬ (2 ^ 1024 ≤ m * 2 ^ j) := by
    intro m j hm hj
    have h1 := hgen m j 970 hm hj
    exact not_le.mpr (lt_of_le_of_lt h1 (two_pow_lt (53 + 970) 1024 (by decide)))
  have key : ∃ v : ℚ, roundPos a b = Float64.finite v ∧ v ≤ 2 ^ (k + 1) := by
    unfold roundPos
    have hmax : max ((k : ℤ)) (-1022) = (k : ℤ) := by omega
    simp only [hk, hmax]
    by_cases hk52 : k < 52
    · have e1 : (-((k : ℤ) - 52)).toNat = 52 - k := by omega
      have e2 : ((k : ℤ) - 52).toNat = 0 := by omega
      simp only [e1, e2, pow_zero, mul_one]
      have hm : roundHalfEven (a * 2 ^ (52 - k)) b ≤ 2 ^ 53 := by
        refine le_trans (roundHalfEven_le_succ _ _) ?_
        have : a * 2 ^ (52 - k) / b < 2 ^ 53 := by
          rw [Nat.div_lt_iff_lt_mul (by omega)]
          have h1 : a * 2 ^ (52 - k) < b * 2 ^ (k + 1) * 2 ^ (52 - k) :=
            Nat.mul_lt_mul_of_pos_right hlt (by positivity)
          have h2 : b * 2 ^ (k + 1) * 2 ^ (52 - k) = 2 ^ 53 * b := by
            rw [Nat.mul_assoc, ← pow_add, Nat.mul_comm]
            congr 2
            omega
          omega
        omega
      have hf := hfin _ 0 hm (by norm_num)
      simp only [pow_zero, mul_one] at hf
      rw [if_neg hf]
      refine ⟨_, rfl, ?_⟩
      rw [Rat.mkRat_eq_div, div_le_iff₀ (by positivity)]
      have h3 : (2 : ℚ) ^ (k + 1) * 2 ^ (52 - k) = 2 ^ 53 := by
        rw [← pow_add]
        congr 1
        omega
      push_cast
      rw [h3]
      exact_mod_cast hm
    · have e1 : (-((k : ℤ) - 52)).toNat = 0 := by omega
      have e2 : ((k : ℤ) - 52).toNat = k - 52 := by omega
      simp only [e1, e2, pow_zero, mul_one]
      have hm : roundHalfEven a (b * 2 ^ (k - 52)) ≤ 2 ^ 53 := by
        refine le_trans (roundHalfEven_le_succ _ _) ?_
        have : a / (b * 2 ^ (k - 52)) < 2 ^ 53 := by
          rw [Nat.div_lt_iff_lt_mul (by positivity)]
          have h2 : 2 ^ 53 * (b * 2 ^ (k - 52)) = b * 2 ^ (k + 1) := by
            rw [Nat.mul_left_comm, ← pow_add]
            congr 2
            omega
          omega
        omega
      rw [if_neg (hfin _ _ hm (by omega))]
      refine ⟨_, rfl, ?_⟩
      rw [Rat.mkRat_eq_div]
      simp only [Nat.cast_one, div_one]
      have h3 : roundHalfEven a (b * 2 ^ (k - 52)) * 2 ^ (k - 52) ≤ 2 ^ 53 * 2 ^ (k - 52) :=
        Nat.mul_le_mul_right _ hm
      have h4 : (2 : ℕ) ^ 53 * 2 ^ (k - 52) = 2 ^ (k + 1) := by
        rw [← pow_add]
        congr 1
        omega
      rw [h4] at h3
      exact_mod_cast h3
  obtain ⟨v, hv, hvle⟩ := key
  exact ⟨v, hv, roundPos_ge_one a b hb hab v hv, le_trans hvle hpowK⟩

/-- Rounding a rational `x` with `1 ≤ x < 2 ^ K` gives a finite value between `1`
and `2 ^ K`. -/
theorem round_bounds (x : ℚ) (K : ℕ) (hx : 1 ≤ x) (hK : x < 2 ^ K) (hK1 : K ≤ 1023) :
    ∃ v : ℚ, Float64.round x = Float64.finite v ∧ 1 ≤ v ∧ v ≤ 2 ^ K := by
  unfold Float64.round
  have hpos : 0 < x := by linarith
  rw [if_neg (ne_of_gt hpos), if_pos hpos]
  have hnum : 0 < x.num := Rat.num_pos.mpr hpos
  have hden : (x.den : ℤ) ≤ x.num := by
    have h1 : (1 : ℚ) ≤ (x.num : ℚ) / (x.den : ℚ) := by rw [Rat.num_div_den]; exact hx
    rw [one_le_div (by exact_mod_cast x.den_pos)] at h1
    exact_mod_cast h1
  have hup : (x.num : ℤ) < (x.den : ℤ) * 2 ^ K := by
    have h1 : (x.num : ℚ) / (x.den : ℚ) < 2 ^ K := by rw [Rat.num_div_den]; exact hK
    rw [div_lt_iff₀ (by exact_mod_cast x.den_pos)] at h1
    have h2 : (x.num : ℚ) < ((x.den : ℤ) * 2 ^ K : ℤ) := by
      push_cast
      linarith
    exact_mod_cast h2
  have hup' : x.num.natAbs < x.den * 2 ^ K := by
    have : ((x.num.natAbs : ℕ) : ℤ) < ((x.den * 2 ^ K : ℕ) : ℤ) := by
      push_cast
      rw [abs_of_pos hnum]
      exact hup
    exact_mod_cast this
  exact roundPos_bounds _ _ K x.den_nz (by omega) hup' hK1

/-! ## main: the frame count and the extension switch -/

/-- The quotient of two finite values, the divisor not zero, is the rounded exact
quotient. -/
theorem div_finite (a q : ℚ) (hq : q ≠ 0) :
    Float64.div (Float64.finite a) (Float64.finite q) = Float64.round (a / q) := by
  show (if q = 0 then _ else _) = _
  rw [if_neg hq]

/-- The frame count of a finite positive rate: the float64 quotient `FPS / rps`
is finite and not negative, and the count is its integer part. -/
theorem frameCount_floor (q : ℚ) (hq : 0 < q) (n : ℤ)
    (h : main.frameCount (Float64.finite q) = some n) :
    ∃ v : ℚ, Float64.div (Float64.finite FPS) (Float64.finite q) = Float64.finite v
      ∧ 0 ≤ v ∧ n = ⌊v⌋ := by
  unfold main.frameCount at h
  have hdiv := div_finite FPS q (ne_of_gt hq)
  rw [hdiv] at h ⊢
  have hx : 0 < FPS / q := div_pos (by norm_num [FPS]) hq
  cases hr : Float64.round (FPS / q) with
  | finite v =>
    rw [hr] at h
    have hv := round_nonneg _ hx v hr
    exact ⟨v, rfl, hv, toInt_eq_floor v hv n h⟩
  | inf s => rw [hr] at h; cases h
  | nan => rw [hr] at h; cases h

/-- A rate in `(0, 50]` never gives a frame count below 1. -/
theorem frameCount_ge_one (q : ℚ) (hq : 0 < q) (hq50 : q ≤ 50) (n : ℤ)
    (h : main.frameCount (Float64.finite q) = some n) : 1 ≤ n := by
  obtain ⟨v, hv, _, hn⟩ := frameCount_floor q hq n h
  have hdiv := div_finite FPS q (ne_of_gt hq)
  rw [hdiv] at hv
  have hx : 1 ≤ FPS / q := by
    rw [one_le_div hq]
    simpa [FPS] using hq50
  have h1 := round_ge_one _ hx v hv
  rw [hn]
  exact Int.le_floor.mpr (by exact_mod_cast h1)

/-- A rate between `2 ^ (-56)` and `50` has a frame count, and it is at least 1. -/
theorem frameCount_defined (q : ℚ) (hq : (1 : ℚ) / 2 ^ 56 ≤ q) (hq50 : q ≤ 50) :
    ∃ n : ℤ, main.frameCount (Float64.finite q) = some n ∧ 1 ≤ n := by
  have hpos : 0 < q := lt_of_lt_of_le (by positivity) hq
  have hx : 1 ≤ FPS / q := by
    rw [one_le_div hpos]
    simpa [FPS] using hq50
  have hK : FPS / q < 2 ^ 62 := by
    rw [div_lt_iff₀ hpos]
    have h1 : (2 : ℚ) ^ 62 * (1 / 2 ^ 56) ≤ 2 ^ 62 * q :=
      mul_le_mul_of_nonneg_left hq (by positivity)
    have h2 : (2 : ℚ) ^ 62 * (1 / 2 ^ 56) = 64 := by norm_num
    have h3 : FPS < 64 := by norm_num [FPS]
    linarith
  obtain ⟨v, hv, hv1, hvK⟩ := round_bounds (FPS / q) 62 hx hK (by norm_num)
  have hv0 : 0 ≤ v := by linarith
  have hdiv := div_finite FPS q (ne_of_gt hpos)
  have hfl : v.num.tdiv v.den = ⌊v⌋ := by
    rw [Int.tdiv_eq_ediv (Rat.num_nonneg.mpr hv0) (by positivity), Rat.floor_def]
  have hlo : (1 : ℤ) ≤ ⌊v⌋ := Int.le_floor.mpr (by exact_mod_cast hv1)
  have hhi : ⌊v⌋ < 2 ^ 63 := by
    rw [Int.floor_lt]
    have : (2 : ℚ) ^ 62 < 2 ^ 63 := by norm_num
    push_cast
    linarith
  refine ⟨⌊v⌋, ?_, hlo⟩
  unfold main.frameCount
  rw [hdiv, hv]
  unfold Float64.toInt
  dsimp only
  rw [hfl, if_pos ⟨by omega, hhi⟩]

/-- The case `".png"` calls `getFrames` at most once, with the unchecked count
`int(FPS/options.RPS)`. -/
theorem main_png_calls (w : World) (options : Options) (image : String) :
    (main.png w options image).calls = []
      ∨ (main.png w options image).calls = [main.frames w options.RPS] := by
  unfold main.png
  cases w.Open image with
  | error e => exact Or.inl rfl
  | ok file =>
    dsimp only
    cases w.Decode file with
    | error e => exact Or.inl rfl
    | ok img =>
      dsimp only
      refine Or.inr ?_
      cases getFrames w.Rotate img (main.frames w options.RPS) options.Center with
      | error p => rfl
      | ok frames =>
        dsimp only
        cases makeGif frames with
        | error p => rfl
        | ok result =>
          dsimp only
          cases w.Create "out.gif" with
          | error e => rfl
          | ok u => rfl

/-- The loop over the paths calls `getFrames` at most once, with the unchecked
count. -/
theorem main_loop_calls (w : World) (options : Options) (images : List String) :
    (main.loop w options images).calls = []
      ∨ (main.loop w options images).calls = [main.frames w options.RPS] := by
  induction images with
  | nil => exact Or.inl rfl
  | cons image rest ih =>
    unfold main.loop
    dsimp only
    split_ifs
    · exact main_png_calls w options image
    · exact ih
    · exact Or.inl rfl

/-- A run calls `getFrames` at most once, with the unchecked count. -/
theorem main_run_calls (w : World) (options : Options) :
    (main.run w options).calls = []
      ∨ (main.run w options).calls = [main.frames w options.RPS] := by
  unfold main.run
  split_ifs
  · exact Or.inl rfl
  · exact main_loop_calls w options options.Images

/-- Paths with the extension `.jpg` or `.jpeg` are passed over by the loop of
`main`. -/
theorem main_loop_skip (w : World) (options : Options) (jpgs rest : List String)
    (hj : ∀ q ∈ jpgs, Ext q = ".jpg" ∨ Ext q = ".jpeg") :
    main.loop w options (jpgs ++ rest) = main.loop w options rest := by
  induction jpgs with
  | nil => rfl
  | cons q qs ih =>
    have hq := hj q (List.mem_cons_self q qs)
    have hne : Ext q ≠ ".png" := by
      rcases hq with h | h <;> rw [h] <;> decide
    rw [List.cons_append, main.loop]
    rw [if_neg hne, if_pos hq]
    exact ih fun p hp => hj p (List.mem_cons_of_mem q hp)

/-! ## renderFrame on a frame of one palette colour -/

/-- The palette of `renderFrame` has 217 entries. -/
theorem palette_length : renderFrame.palette.length = 217 := by decide!

/-- A pixel whose colour is entry `k` of the palette of `renderFrame`, with no
error propagated to it, is given the index `k` and leaves no error. -/
theorem quantize_palette :
    ∀ k : ℕ, k < 217 →
      drawPaletted.quantize (renderFrame.palette.map fun c => ⟨c.R, c.G, c.B, c.A⟩)
        (renderFrame.palette.getD k ⟨0, 0, 0, 0⟩) ⟨0, 0, 0, 0⟩ = (k, ⟨0, 0, 0, 0⟩) := by
  decide!

/-- Adding a zero error leaves an error row that is zero everywhere as it is. -/
theorem addError_zero (i : ℕ) (w : ℤ) :
    addError (fun _ => (⟨0, 0, 0, 0⟩ : Quad)) i ⟨0, 0, 0, 0⟩ w = fun _ => ⟨0, 0, 0, 0⟩ := by
  funext j
  unfold addError
  by_cases h : j = i
  · subst h
    simp
  · simp [Function.update, h]

/-- Writing the next slot of a slice whose first `t` slots are written. -/
theorem set_replicate_append {α : Type} (t n : ℕ) (a b : α) (hn : 0 < n) :
    (List.replicate t a ++ List.replicate n b).set t a
      = List.replicate (t + 1) a ++ List.replicate (n - 1) b := by
  induction t with
  | zero =>
    cases n with
    | zero => omega
    | succ n => simp [List.replicate_succ]
  | succ t ih =>
    rw [List.replicate_succ, List.cons_append, List.set_cons_succ, ih]
    simp [List.replicate_succ]

/-- One pixel of a frame of one colour that quantizes to `k` without error. -/
theorem pixel_uniform (palette : List Quad) (src : Image) (c : Color) (k w len y x : ℕ)
    (hq : drawPaletted.quantize palette c ⟨0, 0, 0, 0⟩ = (k, ⟨0, 0, 0, 0⟩)) (hk : k < 256)
    (hc : src.At (0 + (x : ℤ)) (0 + (y : ℤ)) = c) (hlt : y * w + x < len) :
    drawPaletted.pixel palette src ⟨0, 0⟩ 0 (w : ℤ) y (drawnState len (y * w + x) k) x
      = drawnState len (y * w + x + 1) k := by
  unfold drawPaletted.pixel drawnState
  simp only [hc, hq, addError_zero]
  have hidx : (0 + ((y : ℤ) * (w : ℤ) + (x : ℤ))).toNat = y * w + x := by
    rw [zero_add]
    exact_mod_cast Int.toNat_ofNat (y * w + x)
  rw [hidx, Nat.mod_eq_of_lt hk, set_replicate_append _ _ _ _ (by omega)]
  congr 3

/-- The first `x` pixels of row `y` of a frame of one colour. -/
theorem row_fold_uniform (palette : List Quad) (src : Image) (c : Color) (k w len y : ℕ)
    (hq : drawPaletted.quantize palette c ⟨0, 0, 0, 0⟩ = (k, ⟨0, 0, 0, 0⟩)) (hk : k < 256)
    (hc : ∀ x : ℕ, x < w → src.At (0 + (x : ℤ)) (0 + (y : ℤ)) = c) (hlen : (y + 1) * w ≤ len) :
    ∀ x : ℕ, x ≤ w →
      (List.range x).foldl (drawPaletted.pixel palette src ⟨0, 0⟩ 0 (w : ℤ) y)
        (drawnState len (y * w) k) = drawnState len (y * w + x) k := by
  intro x
  induction x with
  | zero => intro _; rfl
  | succ x ih =>
    intro hx
    rw [List.range_succ, List.foldl_append, ih (by omega)]
    simp only [List.foldl_cons, List.foldl_nil]
    have hlt : y * w + x < len := by
      have : (y + 1) * w = y * w + w := by ring
      omega
    exact pixel_uniform palette src c k w len y x hq hk (hc x (by omega)) hlt

/-- Row `y` of a frame of one colour. -/
theorem row_uniform (palette : List Quad) (src : Image) (c : Color) (k w len y : ℕ)
    (hq : drawPaletted.quantize palette c ⟨0, 0, 0, 0⟩ = (k, ⟨0, 0, 0, 0⟩)) (hk : k < 256)
    (hc : ∀ x : ℕ, x < w → src.At (0 + (x : ℤ)) (0 + (y : ℤ)) = c) (hlen : (y + 1) * w ≤ len) :
    drawPaletted.row palette src ⟨0, 0⟩ 0 (w : ℤ) w (drawnState len (y * w) k) y
      = drawnState len ((y + 1) * w) k := by
  unfold drawPaletted.row
  dsimp only
  rw [row_fold_uniform palette src c k w len y hq hk hc hlen w (Nat.le_refl w)]
  have : (y + 1) * w = y * w + w := by ring
  rw [this]
  rfl

/-- The first `y` rows of a frame of one colour. -/
theorem rows_uniform (palette : List Quad) (src : Image) (c : Color) (k w h : ℕ)
    (hq : drawPaletted.quantize palette c ⟨0, 0, 0, 0⟩ = (k, ⟨0, 0, 0, 0⟩)) (hk : k < 256)
    (hc : ∀ x y : ℕ, x < w → y < h → src.At (0 + (x : ℤ)) (0 + (y : ℤ)) = c) :
    ∀ y : ℕ, y ≤ h →
      (List.range y).foldl (drawPaletted.row palette src ⟨0, 0⟩ 0 (w : ℤ) w)
        (drawnState (h * w) 0 k) = drawnState (h * w) (y * w) k := by
  intro y
  induction y with
  | zero => intro _; rw [Nat.zero_mul]; rfl
  | succ y ih =>
    intro hy
    rw [List.range_succ, List.foldl_append, ih (by omega)]
    simp only [List.foldl_cons, List.foldl_nil]
    exact row_uniform palette src c k w (h * w) y hq hk (fun x hx => hc x y hx (by omega))
      (Nat.mul_le_mul_right w hy)

/-- The rendering of a frame whose bounds start at the origin and whose pixels
all have the palette colour of index `k`: every pixel gets the index `k`. -/
theorem renderFrame_origin (px : ℤ → ℤ → Color) (w h : ℕ) (hw : 0 < w) (hh : 0 < h)
    (wfX : (0 : ℤ) ≤ (w : ℤ)) (wfY : (0 : ℤ) ≤ (h : ℤ)) (k : ℕ) (hk : k < 217)
    (hc : ∀ x y : ℕ, x < w → y < h →
      px (0 + (x : ℤ)) (0 + (y : ℤ)) = renderFrame.palette.getD k ⟨0, 0, 0, 0⟩) :
    renderFrame ⟨⟨⟨0, 0⟩, ⟨(w : ℤ), (h : ℤ)⟩⟩, px, wfX, wfY⟩
      = { Pix := List.replicate (h * w) k, Stride := (w : ℤ),
          Rect := ⟨⟨0, 0⟩, ⟨(w : ℤ), (h : ℤ)⟩⟩, Palette := renderFrame.palette } := by
  have hw' : (0 : ℤ) < (w : ℤ) := by exact_mod_cast hw
  have hh' : (0 : ℤ) < (h : ℤ) := by exact_mod_cast hh
  have hne : (Rectangle.mk ⟨0, 0⟩ ⟨(w : ℤ), (h : ℤ)⟩).Empty = false := by
    simp only [Rectangle.Empty, Bool.or_eq_false_iff, decide_eq_false_iff_not]
    constructor <;> omega
  have hint : (Rectangle.mk ⟨0, 0⟩ ⟨(w : ℤ), (h : ℤ)⟩).Intersect ⟨⟨0, 0⟩, ⟨(w : ℤ), (h : ℤ)⟩⟩
      = ⟨⟨0, 0⟩, ⟨(w : ℤ), (h : ℤ)⟩⟩ := by
    unfold Rectangle.Intersect
    simp [hne]
  have hclip : clip ⟨⟨0, 0⟩, ⟨(w : ℤ), (h : ℤ)⟩⟩ ⟨⟨0, 0⟩, ⟨(w : ℤ), (h : ℤ)⟩⟩
      ⟨⟨0, 0⟩, ⟨(w : ℤ), (h : ℤ)⟩⟩ ⟨0, 0⟩ = (⟨⟨0, 0⟩, ⟨(w : ℤ), (h : ℤ)⟩⟩, ⟨0, 0⟩) := by
    unfold clip
    simp [Point.Sub, Rectangle.Add, hint]
  have hpix : List.replicate (((w : ℤ) - 0) * ((h : ℤ) - 0)).toNat (0 : ℕ)
      = (drawnState (h * w) 0 k).pix := by
    unfold drawnState
    simp only [sub_zero, List.replicate_zero, List.nil_append, Nat.sub_zero]
    congr 1
    rw [mul_comm]
    exact_mod_cast Int.toNat_ofNat (h * w)
  have hq := quantize_palette k hk
  have hk256 : k < 256 := by omega
  have hrows := rows_uniform _ ⟨⟨⟨0, 0⟩, ⟨(w : ℤ), (h : ℤ)⟩⟩, px, wfX, wfY⟩ _ k w h hq hk256 hc
    h (Nat.le_refl h)
  unfold renderFrame FloydSteinberg.Draw
  simp only [NewPaletted, hclip, hne, Rectangle.Dx, Rectangle.Dy]
  unfold drawPaletted
  simp only [Paletted.PixOffset, Rectangle.Dx, Rectangle.Dy, sub_zero, sub_self, zero_mul,
    mul_one, add_zero, Int.toNat_ofNat]
  have hst : DrawState.mk (List.replicate ((w : ℤ) * (h : ℤ)).toNat 0)
      (fun _ => ⟨0, 0, 0, 0⟩) (fun _ => ⟨0, 0, 0, 0⟩) = drawnState (h * w) 0 k := by
    simp only [sub_zero] at hpix
    unfold drawnState
    unfold drawnState at hpix
    rw [hpix]
  rw [hst, hrows]
  simp [drawnState]

/-! ## The claims -/

/-- C1 (the code departs from it). For the frame counts 13 and 50 (the count of
the default rate of one rotation per second) the angle accumulated by repeated
addition is still below 360 after `n` additions, so the loop of `getFrames` runs
once more and writes to index `n`: the program panics instead of returning `n`
frames. -/
theorem getFrames_overruns (rotate : Image → Float64 → Point → Image) (img : Image)
    (centerPoint : String → Option ℤ) :
    getFrames rotate img 13 centerPoint = Except.error (Panic.indexOutOfRange 13 13)
      ∧ getFrames rotate img 50 centerPoint = Except.error (Panic.indexOutOfRange 50 50) := by
  have h13 : getFrames.angles (Float64.div (Float64.ofInt 360) (Float64.ofInt (13 : ℕ))) 13
      (13 + 1) 0 (Float64.finite 0) = Except.error (Panic.indexOutOfRange 13 13) := by
    decide!
  have h50 : getFrames.angles (Float64.div (Float64.ofInt 360) (Float64.ofInt (50 : ℕ))) 50
      (50 + 1) 0 (Float64.finite 0) = Except.error (Panic.indexOutOfRange 50 50) := by
    decide!
  constructor
  · have := getFrames_eq rotate img 13 centerPoint
    rw [h13] at this
    exact this
  · have := getFrames_eq rotate img 50 centerPoint
    rw [h50] at this
    exact this

/-- C2. The pivot of `getFrames`: on each axis, independently, the value of the
override when the key is present and not zero, and otherwise the floor of half
the width (for `x`) or of half the height (for `y`). Bounds 100x50 with no
override give `(50, 25)`, the override with only `x = 10` gives `(10, 25)`, and
the pivot is the one handed to the rotation. -/
theorem getFrames_pivot (rotate : Image → Float64 → Point → Image) (img : Image)
    (centerPoint : String → Option ℤ) :
    (getFrames.pivot img centerPoint).X
        = (match centerPoint "x" with
          | some v => if v ≠ 0 then v else ⌊(img.Bounds.Dx : ℚ) / 2⌋
          | none => ⌊(img.Bounds.Dx : ℚ) / 2⌋)
      ∧ (getFrames.pivot img centerPoint).Y
        = (match centerPoint "y" with
          | some v => if v ≠ 0 then v else ⌊(img.Bounds.Dy : ℚ) / 2⌋
          | none => ⌊(img.Bounds.Dy : ℚ) / 2⌋)
      ∧ getFrames.pivot sampleImage noCenter = ⟨50, 25⟩
      ∧ getFrames.pivot sampleImage (fun key => if key = "x" then some 10 else none) = ⟨10, 25⟩
      ∧ getFrames rotate img 1 centerPoint
        = Except.ok [some (rotate img (Float64.finite 0) (getFrames.pivot img centerPoint))] := by
  have hx : (0 : ℤ) ≤ img.Bounds.Dx := by
    have := img.wfX
    unfold Rectangle.Dx
    omega
  have hy : (0 : ℤ) ≤ img.Bounds.Dy := by
    have := img.wfY
    unfold Rectangle.Dy
    omega
  refine ⟨?_, ?_, by decide, by decide, ?_⟩
  · unfold getFrames.pivot mapIndex
    dsimp only
    rw [← tdiv_two_eq_floor _ hx]
    cases centerPoint "x" with
    | none => simp
    | some v => by_cases hv : v = 0 <;> simp [hv]
  · unfold getFrames.pivot mapIndex
    dsimp only
    rw [← tdiv_two_eq_floor _ hy]
    cases centerPoint "y" with
    | none => simp
    | some v => by_cases hv : v = 0 <;> simp [hv]
  · have := getFrames_of_dvd rotate img 1 centerPoint (by norm_num) (by norm_num)
    rw [show List.range 1 = [0] from rfl] at this
    simpa using this

/-- C4, counterexample. For the frame count 0 `getFrames` builds no sequence: the
first test `0 < 360` of its loop holds and the write to slot 0 of the empty slice
panics, so no record with three lengths 0 comes out. -/
theorem getFrames_zero_panics :
    getFrames sampleRotate sampleImage 0 noCenter = Except.error (Panic.indexOutOfRange 0 0) := by
  have h : getFrames.angles (Float64.div (Float64.ofInt 360) (Float64.ofInt (0 : ℕ))) 0
      (0 + 1) 0 (Float64.finite 0) = Except.error (Panic.indexOutOfRange 0 0) := by
    decide!
  have := getFrames_eq sampleRotate sampleImage 0 noCenter
  rw [h] at this
  exact this

/-- C4, amended. The record that `makeGif` returns for a frame sequence has three
slices as long as the sequence; and whenever `getFrames` returns for the frame
count `n` a sequence with every slot filled, `makeGif` builds a record from it
and all three lengths of the record are `n`. Every frame count `m ≥ 1` that
divides 360 is such a count. -/
theorem makeGif_lengths (rotate : Image → Float64 → Point → Image) (img : Image) (n : ℤ)
    (centerPoint : String → Option ℤ) (sequence : List Image)
    (hframes : getFrames rotate img n centerPoint = Except.ok (sequence.map some)) :
    (∃ g : GIF, makeGif (sequence.map some) = Except.ok g
        ∧ (g.Image.length : ℤ) = n ∧ (g.Delay.length : ℤ) = n ∧ (g.Disposal.length : ℤ) = n)
      ∧ (∀ frames : List Image, ∃ record : GIF,
          makeGif (frames.map some) = Except.ok record
            ∧ record.Image.length = frames.length
            ∧ record.Delay.length = frames.length
            ∧ record.Disposal.length = frames.length)
      ∧ (∀ m : ℕ, 0 < m → m ∣ 360 → ∃ (frames : List (Option Image)) (record : GIF),
          getFrames rotate img (m : ℤ) centerPoint = Except.ok frames
            ∧ makeGif frames = Except.ok record
            ∧ record.Image.length = m ∧ record.Delay.length = m
            ∧ record.Disposal.length = m) := by
  refine ⟨?_, ?_, ?_⟩
  · have hn := getFrames_length rotate img n centerPoint _ hframes
    rw [List.length_map] at hn
    refine ⟨_, makeGif_eq sequence, ?_, ?_, ?_⟩
    · simpa using hn
    · simpa using hn
    · simpa using hn
  · intro frames
    exact ⟨_, makeGif_eq frames, by simp, by simp, by simp⟩
  · intro m hpos hdvd
    have hf : getFrames rotate img (m : ℤ) centerPoint
        = Except.ok (((List.range m).map fun i : ℕ =>
            rotate img (Float64.finite ((i : ℚ) * (360 / (m : ℚ))))
              (getFrames.pivot img centerPoint)).map some) := by
      rw [getFrames_of_dvd rotate img m centerPoint hpos hdvd]
      simp [List.map_map, Function.comp_def, flatMap_singleton_map]
    exact ⟨_, _, hf, makeGif_eq _, by simp, by simp, by simp⟩

/-- C4, witness: the frame count 4 on the sample image. -/
theorem makeGif_lengths_witness :
    getFrames sampleRotate sampleImage 4 noCenter
        = Except.ok (((List.range 4).map fun i : ℕ =>
            sampleRotate sampleImage (Float64.finite ((i : ℚ) * (360 / ((4 : ℕ) : ℚ))))
              (getFrames.pivot sampleImage noCenter)).map some)
      ∧ ∃ g : GIF, makeGif (((List.range 4).map fun i : ℕ =>
            sampleRotate sampleImage (Float64.finite ((i : ℚ) * (360 / ((4 : ℕ) : ℚ))))
              (getFrames.pivot sampleImage noCenter)).map some) = Except.ok g
          ∧ (g.Image.length : ℤ) = 4 ∧ (g.Delay.length : ℤ) = 4
          ∧ (g.Disposal.length : ℤ) = 4 := by
  have hf : getFrames sampleRotate sampleImage 4 noCenter
      = Except.ok (((List.range 4).map fun i : ℕ =>
          sampleRotate sampleImage (Float64.finite ((i : ℚ) * (360 / ((4 : ℕ) : ℚ))))
            (getFrames.pivot sampleImage noCenter)).map some) := by
    rw [show (4 : ℤ) = ((4 : ℕ) : ℤ) from rfl,
      getFrames_of_dvd sampleRotate sampleImage 4 noCenter (by norm_num) (by norm_num)]
    simp [List.map_map, Function.comp_def, flatMap_singleton_map]
  exact ⟨hf, (makeGif_lengths sampleRotate sampleImage 4 noCenter _ hf).1⟩

/-- C5. The record of `makeGif` holds, at every index, the rendering of the frame
of that index and nothing else (the order is kept, no frame is dropped or
repeated), and the rendering has the bounds of its frame. -/
theorem makeGif_frames (frames : List Image) :
    ∃ g : GIF, makeGif (frames.map some) = Except.ok g
      ∧ g.Image = frames.map (fun f => some (renderFrame f))
      ∧ ∀ (i : ℕ) (h : i < frames.length),
          g.Image.get? i = some (some (renderFrame (frames.get ⟨i, h⟩)))
            ∧ (renderFrame (frames.get ⟨i, h⟩)).Rect = (frames.get ⟨i, h⟩).Bounds := by
  refine ⟨_, makeGif_eq frames, rfl, ?_⟩
  intro i h
  refine ⟨?_, renderFrame_Rect _⟩
  simp [List.getElem?_eq_getElem h]

/-- C6. Every frame of the record of `makeGif` carries the same metadata: the
delay `2` hundredths of a second, which is `100 / FPS` for `FPS = 50`, and the
disposal method `gif.DisposalPrevious`; the loop count of the record is `0`. -/
theorem makeGif_metadata (frames : List Image) :
    ∃ g : GIF, makeGif (frames.map some) = Except.ok g
      ∧ g.LoopCount = 0
      ∧ (2 : ℚ) = 100 / FPS
      ∧ ∀ i : ℕ, i < frames.length →
          g.Delay.get? i = some 2 ∧ g.Disposal.get? i = some DisposalPrevious := by
  refine ⟨_, makeGif_eq frames, rfl, by norm_num [FPS], ?_⟩
  intro i h
  simp [h]

/-- C3, counterexample. For the rate 3 the frame count is 16, while the quotient
50 / 3 rounded to the nearest integer is 17. -/
theorem frameCount_three_not_rounded :
    main.frameCount (Float64.finite 3) = some 16 ∧ round (FPS / 3) = (17 : ℤ) := by
  refine ⟨by decide!, ?_⟩
  rw [round_eq, Int.floor_eq_iff]
  norm_num [FPS]

/-- C3, amended. For a rate `rps > 0` the frame count handed to `getFrames` is the
float64 quotient `FPS / rps` with its fractional part discarded (truncation, not
rounding to nearest): the count `n` satisfies `n ≤ FPS / rps < n + 1` for the
computed quotient. The rate 1 gives 50. -/
theorem frameCount_truncates (q : ℚ) (n : ℤ) (hq : 0 < q)
    (h : main.frameCount (Float64.finite q) = some n) :
    (∃ v : ℚ, Float64.div (Float64.finite FPS) (Float64.finite q) = Float64.finite v
        ∧ (n : ℚ) ≤ v ∧ v < (n : ℚ) + 1)
      ∧ main.frameCount (Float64.finite 1) = some 50 := by
  refine ⟨?_, by decide!⟩
  obtain ⟨v, hv, _, hn⟩ := frameCount_floor q hq n h
  refine ⟨v, hv, ?_, ?_⟩
  · rw [hn]
    exact Int.floor_le v
  · rw [hn]
    exact Int.lt_floor_add_one v

/-- C3, witness: the rate 3. -/
theorem frameCount_truncates_witness :
    ∃ v : ℚ, Float64.div (Float64.finite FPS) (Float64.finite 3) = Float64.finite v
      ∧ ((16 : ℤ) : ℚ) ≤ v ∧ v < ((16 : ℤ) : ℚ) + 1 :=
  (frameCount_truncates 3 16 (by norm_num) (by decide!)).1

/-- C7, counterexample. With the rate 100 the command calls `getFrames` with the
frame count 0 and panics there; with the rate -1 it calls `getFrames` with the
frame count -50 and panics in the allocation of the slice. Neither rate is
rejected with an error. -/
theorem main_run_bad_rates :
    (main.run sampleWorld ⟨["a.png"], Float64.finite 100, noCenter, false⟩).calls = [0]
      ∧ (main.run sampleWorld ⟨["a.png"], Float64.finite 100, noCenter, false⟩).result
          = Except.error (Panic.indexOutOfRange 0 0)
      ∧ (main.run sampleWorld ⟨["a.png"], Float64.finite (-1), noCenter, false⟩).calls = [-50]
      ∧ (main.run sampleWorld ⟨["a.png"], Float64.finite (-1), noCenter, false⟩).result
          = Except.error Panic.makesliceLenOutOfRange := by
  decide!

/-- C7, amended. The command does not check the rotation rate: the one frame
count that can reach `getFrames` is the unchecked value of
`int(FPS/options.RPS)`. For a rate in `(0, 50]` whose quotient `FPS / rps` fits the
type `int`, that value is at least 1, and so is every frame count that reaches
`getFrames`; every rate from `2 ^ (-56)` to `50` is such a rate. -/
theorem main_run_frameCount (w : World) (options : Options) (q : ℚ) (n : ℤ)
    (hrps : options.RPS = Float64.finite q) (hq : 0 < q) (hq50 : q ≤ 50)
    (hfit : main.frameCount options.RPS = some n) :
    ((main.run w options).calls = [] ∨ (main.run w options).calls = [n])
      ∧ 1 ≤ n
      ∧ (∀ m ∈ (main.run w options).calls, 1 ≤ m)
      ∧ (∀ other : Options, (main.run w other).calls = []
          ∨ (main.run w other).calls = [main.frames w other.RPS])
      ∧ (∀ r : ℚ, (1 : ℚ) / 2 ^ 56 ≤ r → r ≤ 50 →
          ∃ k : ℤ, main.frameCount (Float64.finite r) = some k ∧ 1 ≤ k) := by
  have hn : 1 ≤ n := by
    rw [hrps] at hfit
    exact frameCount_ge_one q hq hq50 n hfit
  have hfr : main.frames w options.RPS = n := by
    unfold main.frames
    rw [hfit]
    rfl
  have hcalls : (main.run w options).calls = [] ∨ (main.run w options).calls = [n] := by
    have := main_run_calls w options
    rw [hfr] at this
    exact this
  refine ⟨hcalls, hn, ?_, fun other => main_run_calls w other, ?_⟩
  · intro m hm
    rcases hcalls with h | h
    · rw [h] at hm
      cases hm
    · rw [h, List.mem_singleton] at hm
      rw [hm]
      exact hn
  · intro r hlo hhi
    exact frameCount_defined r hlo hhi

/-- C7, witness: the rate 5 on one `.png` path, which calls `getFrames` with the
frame count 10. -/
theorem main_run_frameCount_witness :
    (main.run sampleWorld ⟨["a.png"], Float64.finite 5, noCenter, false⟩).calls = [10]
      ∧ ∀ m ∈ (main.run sampleWorld ⟨["a.png"], Float64.finite 5, noCenter, false⟩).calls,
          1 ≤ m :=
  ⟨by decide!,
    (main_run_frameCount sampleWorld ⟨["a.png"], Float64.finite 5, noCenter, false⟩ 5 10 rfl
      (by norm_num) (by norm_num) (by decide!)).2.2.1⟩

/-- C8, counterexample. For the image of width zero and the frame count 1,
`getFrames` returns a frame sequence: the image rotated by the angle 0 about the
pivot `(0, 25)`. -/
theorem getFrames_emptyImage :
    getFrames sampleRotate emptyImage 1 noCenter
      = Except.ok [some (sampleRotate emptyImage (Float64.finite 0) ⟨0, 25⟩)] := by
  have := getFrames_of_dvd sampleRotate emptyImage 1 noCenter (by norm_num) (by norm_num)
  rw [show List.range 1 = [0] from rfl] at this
  simpa using this

/-- C8, amended. `getFrames` does not look at the size of the source image: for an
image of width zero or of height zero and a frame count `n ≥ 1` that divides 360
it returns `n` frames, frame `i` being the image rotated by `i * (360 / n)`; on the
empty axis the pivot is the value of the override, `0` when there is none. -/
theorem getFrames_zero_area (rotate : Image → Float64 → Point → Image) (img : Image) (n : ℕ)
    (centerPoint : String → Option ℤ) (hzero : img.Bounds.Dx = 0 ∨ img.Bounds.Dy = 0)
    (hpos : 0 < n) (hdvd : n ∣ 360) :
    getFrames rotate img (n : ℤ) centerPoint
        = Except.ok ((List.range n).map fun i =>
            some (rotate img (Float64.finite ((i : ℚ) * (360 / (n : ℚ))))
              (getFrames.pivot img centerPoint)))
      ∧ ((img.Bounds.Dx = 0 ∧ (getFrames.pivot img centerPoint).X = mapIndex centerPoint "x")
        ∨ (img.Bounds.Dy = 0 ∧ (getFrames.pivot img centerPoint).Y = mapIndex centerPoint "y")) := by
  refine ⟨getFrames_of_dvd rotate img n centerPoint hpos hdvd, ?_⟩
  rcases hzero with h | h
  · left
    refine ⟨h, ?_⟩
    unfold getFrames.pivot
    dsimp only
    rw [h]
    split_ifs with h0
    · rw [h0]; rfl
    · rfl
  · right
    refine ⟨h, ?_⟩
    unfold getFrames.pivot
    dsimp only
    rw [h]
    split_ifs with h0
    · rw [h0]; rfl
    · rfl

/-- C8, witness: the image of width zero and the frame count 4. -/
theorem getFrames_zero_area_witness :
    emptyImage.Bounds.Dx = 0
      ∧ getFrames sampleRotate emptyImage ((4 : ℕ) : ℤ) noCenter
        = Except.ok ((List.range 4).map fun i =>
            some (sampleRotate emptyImage (Float64.finite ((i : ℚ) * (360 / ((4 : ℕ) : ℚ))))
              (getFrames.pivot emptyImage noCenter))) :=
  ⟨by decide,
    (getFrames_zero_area sampleRotate emptyImage 4 noCenter (Or.inl (by decide)) (by norm_num)
      (by norm_num)).1⟩

/-- C9, counterexample. A list with the one path `a.jpg` lets the command finish
with a nil error although nothing was done; and the list `a.png`, `b.txt` reaches
the frame pipeline with the first path and finishes with a nil error although
`b.txt` is not supported. -/
theorem main_run_jpg_silent :
    (main.run sampleWorld ⟨["a.jpg"], Float64.finite 1, noCenter, false⟩).result = Except.ok none
      ∧ (main.run sampleWorld ⟨["a.jpg"], Float64.finite 1, noCenter, false⟩).calls = []
      ∧ (main.run sampleWorld ⟨["a.png", "b.txt"], Float64.finite 5, noCenter, false⟩).result
          = Except.ok none
      ∧ (main.run sampleWorld ⟨["a.png", "b.txt"], Float64.finite 5, noCenter, false⟩).calls
          = [10] := by
  decide!

/-- C9, amended. The command takes the paths in order and passes over those with
the extension `.jpg` or `.jpeg` without any effect. If the first path that is not
passed over has an extension other than `.png`, the command returns the error
"unknown image type" and never calls `getFrames`; if every path is passed over,
the command finishes with a nil error and has done nothing. -/
theorem main_run_extensions (w : World) (options : Options) (jpgs : List String) (p : String)
    (rest : List String) (hj : ∀ q ∈ jpgs, Ext q = ".jpg" ∨ Ext q = ".jpeg") :
    (options.Images = jpgs ++ p :: rest → Ext p ≠ ".png" → Ext p ≠ ".jpg" → Ext p ≠ ".jpeg" →
        (main.run w options).result = Except.ok (some "unknown image type")
          ∧ (main.run w options).calls = [])
      ∧ (options.Images = jpgs → jpgs ≠ [] →
        (main.run w options).result = Except.ok none ∧ (main.run w options).calls = []) := by
  constructor
  · intro himg h1 h2 h3
    have hlen : ¬ options.Images.length = 0 := by rw [himg]; simp
    unfold main.run
    rw [if_neg hlen, himg, main_loop_skip w options jpgs (p :: rest) hj, main.loop]
    rw [if_neg h1, if_neg (by rintro (h | h) <;> contradiction)]
    exact ⟨rfl, rfl⟩
  · intro himg hne
    have hlen : ¬ options.Images.length = 0 := by
      rw [himg]
      intro h
      exact hne (List.length_eq_zero.mp h)
    unfold main.run
    rw [if_neg hlen, himg]
    have := main_loop_skip w options jpgs [] hj
    rw [List.append_nil] at this
    rw [this]
    exact ⟨rfl, rfl⟩

/-- C9, witness: the paths `a.jpg`, `b.txt`. -/
theorem main_run_extensions_witness :
    (main.run sampleWorld ⟨["a.jpg", "b.txt"], Float64.finite 1, noCenter, false⟩).result
        = Except.ok (some "unknown image type")
      ∧ (main.run sampleWorld ⟨["a.jpg", "b.txt"], Float64.finite 1, noCenter, false⟩).calls = [] :=
  (main_run_extensions sampleWorld ⟨["a.jpg", "b.txt"], Float64.finite 1, noCenter, false⟩
    ["a.jpg"] "b.txt" [] (by decide)).1 rfl (by decide) (by decide) (by decide)

/-- An image that is no frame of the program: the white one-pixel image whose
bounds start at `(1, 0)`. White is an entry of the palette, yet the rendering
gives its pixel the index 0, whose palette entry is opaque black, because
`renderFrame` draws from the source point `(0, 0)` and the clipped rectangle is
empty. The program never renders such an image. -/
theorem renderFrame_shifted :
    (∀ x y : ℤ, shiftedImage.At x y = ⟨0xffff, 0xffff, 0xffff, 0xffff⟩)
      ∧ (⟨0xffff, 0xffff, 0xffff, 0xffff⟩ : Color) ∈ renderFrame.palette
      ∧ (Point.mk 1 0).In shiftedImage.Bounds = true
      ∧ (renderFrame shiftedImage).At 1 0 = some ⟨0, 0, 0, 0xffff⟩ := by
  refine ⟨fun _ _ => rfl, by decide!, by decide!, by decide!⟩

/-- C10. For a frame whose pixels all have one colour `c` that is an entry of the
palette of `renderFrame` (the 216 web-safe colours and the transparent entry),
the rendering has the bounds of the frame and the palette entry of every pixel
of it is exactly `c`: the error diffusion adds no noise. A frame is a grid of a
width and a height: its bounds start at the origin `(0, 0)`, as those of every
decoded PNG and of every output of `transform.Rotate` do, which are the images
that `makeGif` hands to `renderFrame`. -/
theorem renderFrame_uniform (img : Image) (c : Color) (hmin : img.Bounds.Min = ⟨0, 0⟩)
    (hmem : c ∈ renderFrame.palette)
    (hc : ∀ x y : ℤ, (Point.mk x y).In img.Bounds = true → img.At x y = c) :
    (renderFrame img).Rect = img.Bounds
      ∧ ∀ x y : ℤ, (Point.mk x y).In img.Bounds = true →
          (renderFrame img).At x y = some c := by
  refine ⟨renderFrame_Rect img, ?_⟩
  obtain ⟨⟨bmin, ⟨W, H⟩⟩, px, wfX, wfY⟩ := img
  dsimp only at hmin hc wfX wfY ⊢
  subst hmin
  dsimp only at wfX wfY
  obtain ⟨w, rfl⟩ := Int.eq_ofNat_of_zero_le wfX
  obtain ⟨h, rfl⟩ := Int.eq_ofNat_of_zero_le wfY
  obtain ⟨k, hk, hkc⟩ := List.mem_iff_getElem.mp hmem
  have hk217 : k < 217 := by rw [palette_length] at hk; exact hk
  have hgetD : renderFrame.palette.getD k ⟨0, 0, 0, 0⟩ = c := by
    rw [List.getD_eq_getElem _ _ hk, hkc]
  intro x y hin
  simp only [Point.In, Bool.and_eq_true, decide_eq_true_eq] at hin
  obtain ⟨⟨⟨hx0, hxw⟩, hy0⟩, hyh⟩ := hin
  obtain ⟨xn, rfl⟩ := Int.eq_ofNat_of_zero_le hx0
  obtain ⟨yn, rfl⟩ := Int.eq_ofNat_of_zero_le hy0
  have hxw' : xn < w := by exact_mod_cast hxw
  have hyh' : yn < h := by exact_mod_cast hyh
  have hcs : ∀ a b : ℕ, a < w → b < h →
      px (0 + (a : ℤ)) (0 + (b : ℤ)) = renderFrame.palette.getD k ⟨0, 0, 0, 0⟩ := by
    intro a b ha hb
    rw [hgetD, zero_add, zero_add]
    apply hc
    simp only [Point.In, Bool.and_eq_true, decide_eq_true_eq]
    exact ⟨⟨⟨by positivity, by exact_mod_cast ha⟩, by positivity⟩, by exact_mod_cast hb⟩
  rw [renderFrame_origin px w h (by omega) (by omega) wfX wfY k hk217 hcs]
  have hidx : yn * w + xn < h * w := by
    have : (yn + 1) * w ≤ h * w := Nat.mul_le_mul_right w hyh'
    have : (yn + 1) * w = yn * w + w := by ring
    omega
  have hoff : (((yn : ℤ) - 0) * (w : ℤ) + ((xn : ℤ) - 0) * 1).toNat = yn * w + xn := by
    rw [sub_zero, sub_zero, mul_one]
    exact_mod_cast Int.toNat_ofNat (yn * w + xn)
  have hlen : ¬ renderFrame.palette.length = 0 := by rw [palette_length]; decide
  have hin' : (Point.mk (xn : ℤ) (yn : ℤ)).In ⟨⟨0, 0⟩, ⟨(w : ℤ), (h : ℤ)⟩⟩ = true := by
    simp only [Point.In, Bool.and_eq_true, decide_eq_true_eq]
    exact ⟨⟨⟨hx0, hxw⟩, hy0⟩, hyh⟩
  unfold Paletted.At
  simp only [Paletted.PixOffset, hoff, if_neg hlen, hin', if_true]
  rw [List.getD_eq_getElem _ _ (by rw [List.length_replicate]; exact hidx)]
  rw [List.getElem_replicate, List.get?_eq_getElem?, List.getElem?_eq_getElem hk, hkc]

/-- C10, witness: the white sample image of bounds 100x50. -/
theorem renderFrame_uniform_witness :
    sampleImage.Bounds.Min = ⟨0, 0⟩
      ∧ (⟨0xffff, 0xffff, 0xffff, 0xffff⟩ : Color) ∈ renderFrame.palette
      ∧ (renderFrame sampleImage).Rect = sampleImage.Bounds
      ∧ (renderFrame sampleImage).At 3 4 = some ⟨0xffff, 0xffff, 0xffff, 0xffff⟩ :=
  have h := renderFrame_uniform sampleImage ⟨0xffff, 0xffff, 0xffff, 0xffff⟩ rfl (by decide!)
    (fun _ _ _ => rfl)
  ⟨rfl, by decide!, h.1, h.2 3 4 (by decide)⟩

end Ani
